import Mathlib

/-!
# Verification of the tinyhttp `App` dispatch engine

This file embeds the request-dispatch core of `src/packages/app/src/app.ts`
(the `App` class: `applyHandler`, `App.handler`, and its inner `handle`,
`loop` and `nextWithReqAndRes` closures) as executable Lean definitions and
proves the specified routing, error-handling and state-restoration
properties about them.

JavaScript strings are modelled as `List Char` (`Str`); the in-place
mutation of the `req` / `res` objects is modelled by explicit state
passing; the observable calls made during one dispatch (handler
invocations, `onError` calls, delegations to mounted sub-applications,
and uncaught escapes) are collected in an event trace.
-/

set_option maxRecDepth 10000

/-- JavaScript strings, modelled at character level. -/
abbrev Str := List Char

/-- Builds a `Str` from a Lean string literal (fixture helper). -/
def str (s : String) : Str := s.data

/-- Error values flowing to `onError` / `next(err)`.  `code n` models the
plain object `{ code: n }` (line 102 of app.ts); `val n` stands for an
arbitrary thrown or passed error value. -/
inductive Err where
  | code (n : Nat)
  | val (n : Nat)
deriving DecidableEq, Repr

/-- The `type` field of a middleware entry: `'route'` or `'mw'`. -/
inductive MwType where
  | route
  | mw
deriving DecidableEq, Repr

/-- The observable behaviour of one registered handler function.  A handler
receives `(req, res, next)` and may: optionally finish the response and then
call `next(err?)` (`callNext endFirst err`), finish the response without
calling `next` (`finishOnly`), return without doing either (`passive`),
throw synchronously or from an async body (`throwSync` / `throwAsync`),
or call `onError` directly with a fixed error — the shape of the default
`noMatchHandler = this.onError.bind(null, { code: 404 })` on line 102
(`invokeSink`). -/
inductive HandlerSpec where
  | callNext (endFirst : Bool) (err : Option Err)
  | finishOnly
  | passive
  | throwSync (e : Err)
  | throwAsync (e : Err)
  | invokeSink (e : Err)
deriving DecidableEq, Repr

/-- One entry of the middleware list.  Modelled from the spec: the
`Middleware` type comes from `@tinyhttp/router` (not under src/); per spec
§3 an Entry binds a path pattern, an optional HTTP method, a handler and a
kind (`route` / `mw`). -/
structure Middleware where
  path : Str
  method : Option Str
  type : MwType
  handler : HandlerSpec
deriving DecidableEq, Repr

/-- The request fields read or written by app.ts: `url` (mutable, rewritten
mid-dispatch), `originalUrl` (re-snapshotted at the start of every entry
attempt, line 215), `path` (parsed pathname of `url`), `method`, `params`
(set on route match), and `route` (the matched entry, set on route match;
app.ts stores the result of `getRouteFromApp`, i.e. the matched route).
Header-level fields of the underlying Node request are not represented. -/
structure Req where
  url : Str
  originalUrl : Str
  path : Str
  method : Str
  params : List (Str × Str)
  route : Option Middleware
deriving DecidableEq, Repr

/-- The response fields read or written by the dispatcher: the
`writableEnded` finished flag checked on lines 208 and 249, and
`statusCode` set to 200 on route match (line 233).  Headers and the body
are not represented. -/
structure Res where
  writableEnded : Bool
  statusCode : Nat
deriving DecidableEq, Repr

/-- Observable events of one dispatch, in order: `invoked i` — the handler
of the entry at cursor position `i` was invoked; `sink e req res` — the
Error Sink `this.onError(e, req, res)` was called; `escaped e` — a thrown
value left the dispatcher uncaught (as a discarded rejected promise);
`delegated x req res` — the dispatcher forwarded `(req, res)` to the
sub-application mounted at `x`. -/
inductive Event where
  | invoked (i : Nat)
  | sink (e : Err) (req : Req) (res : Res)
  | escaped (e : Err)
  | delegated (x : Str) (req : Req) (res : Res)
deriving DecidableEq, Repr

/-- Line 17: `lead = (x) => (x.charCodeAt(0) === 47 ? x : '/' + x)` — add a
leading slash if not present.  (On the empty string `charCodeAt` is `NaN`,
so `lead '' = "/"`; hence `lead` never returns an empty string and the
`|| '/'` on line 217 is dead.) -/
def lead (x : Str) : Str :=
  if x.head? = some '/' then x else '/' :: x

/-- The pathname of a URL as computed by Node's `url.parse` (an external
collaborator): everything before the first `?` (query) or `#` (fragment). -/
def pathnameOf (u : Str) : Str :=
  u.takeWhile (fun c => !(c == '?' || c == '#'))

/-- Splits a path on `/` separators (so `"/a/b"` becomes
`[[], ['a'], ['b']]`). -/
def splitOnSlash : Str → List Str
  | [] => [[]]
  | c :: rest =>
    if c = '/' then [] :: splitOnSlash rest
    else
      match splitOnSlash rest with
      | s :: ss => (c :: s) :: ss
      | [] => [[c]]

/-- Modelled from the spec: segment-wise strict matching implemented by
`runRegex` / `matchParams` of `@tinyhttp/req`, which is not under src/.
Per spec §4.1, pattern segments are literals (exact, case-sensitive) or
named parameters `:name` matching one non-empty non-`/` segment; a
full-path match is required unless the pattern ends in the wildcard
segment `*`, which matches the remainder. -/
def segsMatch : List Str → List Str → Bool
  | [], [] => true
  | [['*']], _ => true
  | p :: ps, s :: ss =>
    (match p with
     | ':' :: _ => !s.isEmpty
     | _ => p == s) && segsMatch ps ss
  | _, _ => false

/-- Modelled from the spec (§4.1): strict route matching — `matchParams`
composed with `runRegex` from `@tinyhttp/req` (not under src/). -/
def matchParams (path pathname : Str) : Bool :=
  segsMatch (splitOnSlash path) (splitOnSlash pathname)

/-- Modelled from the spec: parameter extraction (`getURLParams` of
`./request`, not under src/) — per spec §4.1, each `:name` pattern segment
captures the corresponding pathname segment under `name`. -/
def getURLParams : List Str → List Str → List (Str × Str)
  | p :: ps, s :: ss =>
    (match p with
     | ':' :: name => [(name, s)]
     | _ => []) ++ getURLParams ps ss
  | _, _ => []

/-- Modelled from the spec: loose prefix matching (`matchLoose` of
`@tinyhttp/req`, not under src/).  Per spec §4.1 it is true iff the
pathname equals the pattern or begins with the pattern immediately
followed by `/`; per spec §4.3 step 9 the terminal no-match entry —
registered with path `/` (line 199) — is an unconditional match for any
path, so the pattern `/` matches everything. -/
def matchLoose (path pathname : Str) : Bool :=
  path == str "/" || pathname == path || (path ++ ['/']).isPrefixOf pathname

/-- Result of one entry attempt (`handle`): the entry did not match and
the walk proceeds with the restored request (`skip`), or its handler was
invoked and the call stack unwound without the continuation resuming the
walk (`halted`, with the events emitted after the invocation), or its
handler was invoked and the continuation resumed the walk (`continued`). -/
inductive StepResult where
  | skip (req : Req)
  | halted (evs : List Event) (req : Req) (res : Res)
  | continued (req : Req) (res : Res)
deriving DecidableEq, Repr

/-- What a continuation call resolves to. -/
inductive NextResult where
  | sinkCall (e : Err)
  | resume
deriving DecidableEq, Repr

/-- Lines 207-210: `nextWithReqAndRes = (req, res) => (err) => { if (err &&
!res.writableEnded) this.onError(err, req, res); else loop(req, res) }`. -/
def nextWithReqAndRes (res : Res) (err : Option Err) : NextResult :=
  match err with
  | some e => if res.writableEnded then .resume else .sinkCall e
  | none => .resume

/-- Lines 19-27 (`applyHandler`) combined with the behaviour of the handler
itself and of the continuation it is given.  Only handlers whose
`Symbol.toStringTag` is `'AsyncFunction'` are wrapped in `try/catch` with
the thrown value delivered to `next`; a synchronous handler is called bare
(`else h(req, res, next)`), so its throw rejects the async wrapper's
promise, which `handle` awaits and `loop` discards — the value escapes the
dispatcher uncaught (`Event.escaped`). -/
def applyHandler (h : HandlerSpec) (req : Req) (res : Res) : StepResult :=
  match h with
  | .callNext endFirst err =>
    let res1 : Res := if endFirst then { res with writableEnded := true } else res
    (match nextWithReqAndRes res1 err with
     | .sinkCall e => .halted [Event.sink e req res1] req res1
     | .resume => .continued req res1)
  | .finishOnly => .halted [] req { res with writableEnded := true }
  | .passive => .halted [] req res
  | .throwSync e => .halted [Event.escaped e] req res
  | .throwAsync e =>
    (match nextWithReqAndRes res (some e) with
     | .sinkCall e1 => .halted [Event.sink e1 req res] req res
     | .resume => .continued req res)
  | .invokeSink e => .halted [Event.sink e req res] req res

/-- Lines 212-246: the `handle` closure.  Snapshot `originalUrl := url`;
strip the entry's path prefix from `url` (line 217); compute the pathname
used for matching from the just-snapshotted `originalUrl` (line 219);
recompute `path` from the stripped `url` (line 221); then match: a route
entry requires method equality and `matchParams`, a middleware entry
requires `matchLoose`; on match the handler is invoked through
`applyHandler`, on mismatch `url` is restored from `originalUrl` and the
walk loops on.  The context-extension hook invoked before matching
(`applyExtensions` / `extendMiddleware`, not under src/) only populates
derived request fields that this model does not represent, so it is the
identity here. -/
def handle (m : Middleware) (req0 : Req) (res : Res) : StepResult :=
  let req1 : Req := { req0 with originalUrl := req0.url,
                                url := lead (req0.url.drop m.path.length) }
  let pathname := pathnameOf req1.originalUrl
  let req2 : Req := { req1 with path := pathnameOf req1.url }
  if m.type = MwType.route ∧ m.method = some req2.method then
    if matchParams m.path pathname then
      let req3 : Req :=
        { req2 with params := getURLParams (splitOnSlash m.path) (splitOnSlash pathname),
                    route := some m }
      applyHandler m.handler req3 { res with statusCode := 200 }
    else StepResult.skip { req2 with url := req2.originalUrl }
  else if m.type = MwType.mw ∧ matchLoose m.path pathname then
    applyHandler m.handler req2 res
  else StepResult.skip { req2 with url := req2.originalUrl }

/-- Lines 248-254: the `loop` closure.  `if (res.writableEnded) return;
else if (idx <= len) handle(mw[idx++])(req, res, nextWithReqAndRes(req,
res)); else return` — the cursor `idx` over the fixed entry list is the
position argument plus the consumed prefix; the function returns the event
trace together with the final request/response state. -/
def loop : Nat → List Middleware → Req → Res → List Event × Req × Res
  | _, [], req, res => ([], req, res)
  | idx, m :: rest, req, res =>
    if res.writableEnded then ([], req, res)
    else
      match handle m req res with
      | .skip req1 => loop (idx + 1) rest req1 res
      | .halted evs req1 res1 => (Event.invoked idx :: evs, req1, res1)
      | .continued req1 res1 =>
        let r := loop (idx + 1) rest req1 res1
        (Event.invoked idx :: r.1, r.2)

/-- The `App` state used by `handler`: the stored `middleware` list (line
84), the mounted sub-applications `apps` in registration order (the
`Object.keys` insertion order of the `apps` record inherited from
`@tinyhttp/router`), and the configured `noMatchHandler` (line 102). -/
inductive App where
  | mk (middleware : List Middleware) (apps : List (Str × App))
      (noMatchHandler : HandlerSpec)

/-- The stored middleware list of an `App`. -/
def App.middleware : App → List Middleware
  | .mk m _ _ => m

/-- The mounted sub-applications of an `App`, in registration order. -/
def App.apps : App → List (Str × App)
  | .mk _ a _ => a

/-- The configured no-match handler of an `App`. -/
def App.noMatchHandler : App → HandlerSpec
  | .mk _ _ h => h

/-- Lines 196-200: the terminal no-match entry
`{ handler: this.noMatchHandler, type: 'mw', path: '/' }`. -/
def noMatchMW (app : App) : Middleware :=
  { handler := app.noMatchHandler, type := MwType.mw, path := str "/",
    method := none }

/-- Lines 183-255: `App.handler`.  First the sub-application check (lines
189-194): `Object.keys(this.apps).find((x) => req.url.startsWith(x))` —
plain string-prefix, first registered key wins — and on a hit the
*original* `(req, res)` is forwarded to that sub-application's `handler`
and the parent returns (the sub-application's own state change is written
back into the parent's `apps`).  Otherwise the terminal entry is pushed
onto the *stored* `this.middleware` list itself (line 202) and the walk
runs over that grown list.  The `fuel` argument bounds the mount-nesting
depth (the recursion in the source is through finitely nested
sub-applications); the returned pair is the updated application state and
the dispatch outcome. -/
def handler : Nat → App → Req → Res → App × (List Event × Req × Res)
  | 0, app, req, res => (app, ([], req, res))
  | fuel + 1, app, req, res =>
    match app.apps.find? (fun p => p.1.isPrefixOf req.url) with
    | some (x, sub) =>
      let r := handler fuel sub req res
      (App.mk app.middleware
        (app.apps.map (fun p => if p.1 = x then (x, r.1) else p))
        app.noMatchHandler,
       (Event.delegated x req res :: (r.2).1, (r.2).2))
    | none =>
      let mw := app.middleware ++ [noMatchMW app]
      (App.mk mw app.apps app.noMatchHandler, loop 0 mw req res)

/-- The match condition `handle` tests for an entry attempted while
`req.url = url` and `req.method = method`: a route entry must agree on the
method and strictly match the pathname, a middleware entry must loosely
match it (lines 227, 230, 240). -/
def entryMatches (m : Middleware) (url method : Str) : Bool :=
  if m.type = MwType.route ∧ m.method = some method then
    matchParams m.path (pathnameOf url)
  else if m.type = MwType.mw then
    matchLoose m.path (pathnameOf url)
  else false

/-- Position of the first entry whose constraints are satisfied for the
given url and method, in registration order. -/
def findFirstMatch (l : List Middleware) (url method : Str) : Option Nat :=
  match l with
  | [] => none
  | m :: rest =>
    if entryMatches m url method then some 0
    else (findFirstMatch rest url method).map (· + 1)

/-! ## Helper lemmas -/

lemma handle_skip_of_not_matches (m : Middleware) (req : Req) (res : Res)
    (h : entryMatches m req.url req.method = false) :
    handle m req res = StepResult.skip
      { req with originalUrl := req.url,
                 path := pathnameOf (lead (req.url.drop m.path.length)) } := by
  simp only [handle]
  simp only [entryMatches] at h
  split
  · split
    · simp_all
    · rfl
  · split
    · simp_all
    · rfl

lemma handle_invoke_of_matches (m : Middleware) (req : Req) (res : Res)
    (h : entryMatches m req.url req.method = true) :
    ∃ req1 res1, handle m req res = applyHandler m.handler req1 res1 ∧
      req1.url = lead (req.url.drop m.path.length) ∧
      req1.originalUrl = req.url ∧
      req1.method = req.method ∧
      res1.writableEnded = res.writableEnded := by
  simp only [handle]
  simp only [entryMatches] at h
  split
  · split
    · exact ⟨_, _, rfl, rfl, rfl, rfl, rfl⟩
    · simp_all
  · split
    · exact ⟨_, _, rfl, rfl, rfl, rfl, rfl⟩
    · simp_all

lemma applyHandler_halted_events {h : HandlerSpec} {req : Req} {res : Res}
    {evs : List Event} {req1 : Req} {res1 : Res}
    (he : applyHandler h req res = StepResult.halted evs req1 res1) (k : Nat) :
    Event.invoked k ∉ evs := by
  cases h <;> simp only [applyHandler] at he <;>
    (try split at he) <;>
    (try cases he) <;> simp_all

lemma handle_halted_events {m : Middleware} {req : Req} {res : Res}
    {evs : List Event} {req1 : Req} {res1 : Res}
    (he : handle m req res = StepResult.halted evs req1 res1) (k : Nat) :
    Event.invoked k ∉ evs := by
  simp only [handle] at he
  split at he
  · split at he
    · exact applyHandler_halted_events he k
    · cases he
  · split at he
    · exact applyHandler_halted_events he k
    · cases he

lemma loop_invoked_ge (l : List Middleware) : ∀ (idx : Nat) (req : Req)
    (res : Res) (k : Nat), Event.invoked k ∈ (loop idx l req res).1 → idx ≤ k := by
  induction l with
  | nil => intro idx req res k hk; simp [loop] at hk
  | cons m rest ih =>
    intro idx req res k hk
    simp only [loop] at hk
    by_cases hw : res.writableEnded
    · simp [hw] at hk
    · simp only [hw, if_false, Bool.false_eq_true, if_neg] at hk
      rcases hh : handle m req res with req1 | ⟨evs, req1, res1⟩ | ⟨req1, res1⟩ <;>
        rw [hh] at hk
      · exact Nat.le_of_succ_le (ih (idx + 1) req1 res k hk)
      · rcases List.mem_cons.mp hk with h1 | h1
        · cases h1; exact Nat.le_refl idx
        · exact absurd h1 (handle_halted_events hh k)
      · rcases List.mem_cons.mp hk with h1 | h1
        · cases h1; exact Nat.le_refl idx
        · exact Nat.le_of_succ_le (ih (idx + 1) req1 res1 k h1)

lemma loop_append_skips (l : List Middleware) : ∀ (idx : Nat) (req : Req)
    (res : Res) (l2 : List Middleware),
    res.writableEnded = false →
    (∀ m ∈ l, entryMatches m req.url req.method = false) →
    ∃ req1, loop idx (l ++ l2) req res = loop (idx + l.length) l2 req1 res ∧
      req1.url = req.url ∧ req1.method = req.method := by
  induction l with
  | nil => intro idx req res l2 _ _; exact ⟨req, by simp, rfl, rfl⟩
  | cons m rest ih =>
    intro idx req res l2 hw hm
    have hskip := handle_skip_of_not_matches m req res
      (hm m (List.mem_cons_self m rest))
    have step : loop idx ((m :: rest) ++ l2) req res =
        loop (idx + 1) (rest ++ l2)
          { req with originalUrl := req.url,
                     path := pathnameOf (lead (req.url.drop m.path.length)) } res := by
      simp only [List.cons_append, loop, hw, if_false, Bool.false_eq_true, if_neg, hskip]
      rfl
    rcases ih (idx + 1)
        { req with originalUrl := req.url,
                   path := pathnameOf (lead (req.url.drop m.path.length)) } res l2 hw
        (by intro m1 hm1; exact hm m1 (List.mem_cons_of_mem m hm1)) with
      ⟨req1, heq, hurl, hmeth⟩
    refine ⟨req1, ?_, hurl, hmeth⟩
    rw [step, heq]
    have : idx + 1 + rest.length = idx + (m :: rest).length := by
      simp [List.length_cons]; omega
    rw [this]

lemma applyHandler_ne_skip (h : HandlerSpec) (req : Req) (res : Res) (req1 : Req) :
    applyHandler h req res ≠ StepResult.skip req1 := by
  cases h <;> simp only [applyHandler] <;> (try split) <;> simp

lemma first_match_aux (l : List Middleware) : ∀ (idx : Nat) (req : Req)
    (res : Res) (j : Nat),
    res.writableEnded = false →
    findFirstMatch l req.url req.method = some j →
    ∃ ts, (loop idx l req res).1 = Event.invoked (idx + j) :: ts ∧
      ∀ k, Event.invoked k ∈ ts → idx + j < k := by
  induction l with
  | nil => intro idx req res j _ hf; simp [findFirstMatch] at hf
  | cons m rest ih =>
    intro idx req res j hw hf
    simp only [findFirstMatch] at hf
    by_cases hm : entryMatches m req.url req.method = true
    · rw [if_pos hm] at hf
      injection hf with hj
      subst hj
      rcases handle_invoke_of_matches m req res hm with
        ⟨req1, res1, heq, _, _, _, hwe⟩
      rcases ha : applyHandler m.handler req1 res1 with
        req2 | ⟨evs, req2, res2⟩ | ⟨req2, res2⟩
      · exact absurd ha (applyHandler_ne_skip m.handler req1 res1 req2)
      · refine ⟨evs, by simp [loop, hw, heq, ha], ?_⟩
        intro k hk
        exact absurd hk (applyHandler_halted_events ha k)
      · refine ⟨(loop (idx + 1) rest req2 res2).1, by simp [loop, hw, heq, ha], ?_⟩
        intro k hk
        have := loop_invoked_ge rest (idx + 1) req2 res2 k hk
        omega
    · rw [if_neg hm] at hf
      rcases Option.map_eq_some'.mp hf with ⟨j1, hj1, hj2⟩
      subst hj2
      have hskip := handle_skip_of_not_matches m req res (by simpa using hm)
      rcases ih (idx + 1)
          { req with originalUrl := req.url,
                     path := pathnameOf (lead (req.url.drop m.path.length)) } res j1 hw
          hj1 with ⟨ts, h1, h2⟩
      refine ⟨ts, ?_, ?_⟩
      · have : (loop idx (m :: rest) req res).1 =
            (loop (idx + 1) rest
              { req with originalUrl := req.url,
                         path := pathnameOf (lead (req.url.drop m.path.length)) } res).1 := by
          simp [loop, hw, hskip]
        rw [this, h1]
        have : idx + 1 + j1 = idx + (j1 + 1) := by omega
        rw [this]
      · intro k hk
        have := h2 k hk
        omega

/-- **C1.** For every request and every sequence of registered entries, the
entry whose handler is invoked first is the first entry in registration
order whose kind/method/path constraints (`entryMatches`) are satisfied by
the request: the dispatch trace begins with that entry's invocation — so
no later entry's handler runs before it and no earlier (non-satisfying)
entry's handler is ever invoked — and every other invocation in the trace
is of a strictly later entry. -/
theorem first_match_wins (l : List Middleware) (req : Req) (res : Res)
    (j : Nat) (hw : res.writableEnded = false)
    (hf : findFirstMatch l req.url req.method = some j) :
    ∃ ts, (loop 0 l req res).1 = Event.invoked j :: ts ∧
      ∀ k, Event.invoked k ∈ ts → j < k := by
  have := first_match_aux l 0 req res j hw hf
  simpa using this

def w1l : List Middleware :=
  [⟨str "/x", none, MwType.mw, HandlerSpec.passive⟩,
   ⟨str "/", none, MwType.mw, HandlerSpec.callNext false none⟩,
   ⟨str "/abc", some (str "GET"), MwType.route, HandlerSpec.finishOnly⟩]

def w1req : Req := ⟨str "/abc", str "/abc", str "/abc", str "GET", [], none⟩

def w1res : Res := ⟨false, 200⟩

/-- Witness for C1: with three overlapping entries, the first structural
match (position 1) is invoked first. -/
theorem first_match_wins_witness :
    ∃ ts, (loop 0 w1l w1req w1res).1 = Event.invoked 1 :: ts ∧
      ∀ k, Event.invoked k ∈ ts → 1 < k :=
  first_match_wins w1l w1req w1res 1 (by decide) (by decide)

lemma loop_of_writableEnded {res : Res} (hw : res.writableEnded = true)
    (idx : Nat) (l : List Middleware) (req : Req) :
    loop idx l req res = ([], req, res) := by
  cases l <;> simp [loop, hw]

lemma handle_invoke_of_matches_mw (m : Middleware) (req : Req) (res : Res)
    (ht : m.type = MwType.mw)
    (hml : matchLoose m.path (pathnameOf req.url) = true) :
    handle m req res = applyHandler m.handler
      { req with originalUrl := req.url,
                 url := lead (req.url.drop m.path.length),
                 path := pathnameOf (lead (req.url.drop m.path.length)) } res := by
  simp only [handle]
  rw [if_neg (by simp [ht]), if_pos ⟨ht, hml⟩]

def c2sub : App := App.mk [] [] (HandlerSpec.invokeSink (Err.code 404))

def c2app : App := App.mk
  [⟨str "/foobar", none, MwType.mw, HandlerSpec.finishOnly⟩]
  [(str "/foo", c2sub)] (HandlerSpec.invokeSink (Err.code 404))

def c2req : Req := ⟨str "/foobar", str "/foobar", str "/foobar", str "GET", [], none⟩

def c2res : Res := ⟨false, 200⟩

/-- **C2 counterexample.** The claim requires a mount to be selected only
when the mount path is a loose-match prefix of the request path, so that a
mount at `/foo` is *not* selected for request path `/foobar`.  The code
(line 189) selects the mount with plain `String.startsWith`: for the
request `/foobar`, `matchLoose "/foo" "/foobar"` is false, yet the
dispatch delegates to the sub-application mounted at `/foo` (and the
parent's own entry matching `/foobar` never runs — the trace is the
delegation followed by the sub-application's 404 terminal). -/
theorem subapp_loose_counterexample :
    matchLoose (str "/foo") (pathnameOf c2req.url) = false ∧
    (handler 2 c2app c2req c2res).2.1 =
      [Event.delegated (str "/foo") c2req c2res, Event.invoked 0,
       Event.sink (Err.code 404) c2req c2res] := by decide

/-- **C2 (amended).** For every request whose `url` has at least one
registered mount path as a plain string prefix (`startsWith`, not
loose-match — so a mount at `/foo` *is* selected for request path
`/foobar`), the dispatcher forwards the original, unmodified
`(request, response)` to the first-registered such sub-application's
handler and stops: the parent's dispatch outcome is exactly the
delegation event followed by the sub-application's own dispatch, and the
parent's own entries are never consulted (its stored middleware list is
not even extended with the terminal entry). -/
theorem subapp_delegation (fuel : Nat) (app : App) (req : Req) (res : Res)
    (x : Str) (sub : App)
    (h : app.apps.find? (fun p => p.1.isPrefixOf req.url) = some (x, sub)) :
    (handler (fuel + 1) app req res).2 =
      (Event.delegated x req res :: (handler fuel sub req res).2.1,
       (handler fuel sub req res).2.2) ∧
    (handler (fuel + 1) app req res).1.middleware = app.middleware := by
  simp [handler, h, App.middleware]

def w2sub : App := App.mk
  [⟨str "/", none, MwType.mw, HandlerSpec.finishOnly⟩] []
  (HandlerSpec.invokeSink (Err.code 404))

def w2app : App := App.mk
  [⟨str "/api/widgets", none, MwType.mw, HandlerSpec.finishOnly⟩]
  [(str "/api", w2sub)] (HandlerSpec.invokeSink (Err.code 404))

def w2req : Req :=
  ⟨str "/api/widgets", str "/api/widgets", str "/api/widgets", str "GET", [], none⟩

/-- Witness for C2 (amended): a mount at `/api` and request path
`/api/widgets` — full delegation, parent entries untouched. -/
theorem subapp_delegation_witness :
    (handler 2 w2app w2req c2res).2 =
      (Event.delegated (str "/api") w2req c2res :: (handler 1 w2sub w2req c2res).2.1,
       (handler 1 w2sub w2req c2res).2.2) ∧
    (handler 2 w2app w2req c2res).1.middleware = w2app.middleware :=
  subapp_delegation 1 w2app w2req c2res (str "/api") w2sub (by rfl)

/-- **C10.** Every call to the dispatch handler that is not delegated to a
sub-application appends the terminal no-match entry to the application's
*stored* middleware list itself (line 202 pushes onto `this.middleware`,
not a per-dispatch copy): the stored list after the dispatch is the old
list grown by exactly the one terminal entry, which sits last, and the
walk of that request runs over exactly that grown list — so the terminal
entry is appended exactly once per such dispatch and is logically last
among that request's entries. -/
theorem terminal_append_frame (fuel : Nat) (app : App) (req : Req) (res : Res)
    (h : app.apps.find? (fun p => p.1.isPrefixOf req.url) = none) :
    (handler (fuel + 1) app req res).1.middleware =
      app.middleware ++ [noMatchMW app] ∧
    (handler (fuel + 1) app req res).2 =
      loop 0 (app.middleware ++ [noMatchMW app]) req res := by
  simp [handler, h, App.middleware]

def w10app : App := App.mk
  [⟨str "/a", none, MwType.mw, HandlerSpec.passive⟩] []
  (HandlerSpec.invokeSink (Err.code 404))

def w10req : Req := ⟨str "/a", str "/a", str "/a", str "GET", [], none⟩

/-- Witness for C10: one dispatch grows the stored list by the terminal
entry. -/
theorem terminal_append_frame_witness :
    (handler 1 w10app w10req c2res).1.middleware =
      w10app.middleware ++ [noMatchMW w10app] ∧
    (handler 1 w10app w10req c2res).2 =
      loop 0 (w10app.middleware ++ [noMatchMW w10app]) w10req c2res :=
  terminal_append_frame 0 w10app w10req c2res (by rfl)

def res0 : Res := ⟨false, 200⟩

/-- **C3.** For every request that is not delegated and whose path matches
no registered entry (and with the default no-match handler
`onError.bind(null, { code: 404 })`), the dispatch trace is exactly one
invocation of the synthesized terminal entry — whose cursor position
`app.middleware.length` lies beyond every registered entry, so no
registered handler is invoked — followed by exactly one Error Sink call
carrying the not-found error `{ code: 404 }`. -/
theorem no_match_sink_404 (fuel : Nat) (app : App) (req : Req) (res : Res)
    (hw : res.writableEnded = false)
    (hsub : app.apps.find? (fun p => p.1.isPrefixOf req.url) = none)
    (hm : ∀ m ∈ app.middleware, entryMatches m req.url req.method = false)
    (hnm : app.noMatchHandler = HandlerSpec.invokeSink (Err.code 404)) :
    ∃ req1, (handler (fuel + 1) app req res).2.1 =
      [Event.invoked app.middleware.length, Event.sink (Err.code 404) req1 res] := by
  have hdisp : (handler (fuel + 1) app req res).2 =
      loop 0 (app.middleware ++ [noMatchMW app]) req res := by
    simp [handler, hsub]
  rcases loop_append_skips app.middleware 0 req res [noMatchMW app] hw hm with
    ⟨req1, heq, hurl, hmeth⟩
  have hterm : handle (noMatchMW app) req1 res = applyHandler app.noMatchHandler
      { req1 with originalUrl := req1.url,
                  url := lead (req1.url.drop (noMatchMW app).path.length),
                  path := pathnameOf (lead (req1.url.drop (noMatchMW app).path.length)) }
      res :=
    handle_invoke_of_matches_mw (noMatchMW app) req1 res rfl
      (by simp [noMatchMW, matchLoose])
  refine ⟨{ req1 with originalUrl := req1.url,
                      url := lead (req1.url.drop (noMatchMW app).path.length),
                      path := pathnameOf (lead (req1.url.drop (noMatchMW app).path.length)) },
          ?_⟩
  rw [hdisp, heq]
  rw [hnm] at hterm
  simp [loop, hw, hterm, applyHandler]

def w3app : App := App.mk
  [⟨str "/x", none, MwType.mw, HandlerSpec.passive⟩] []
  (HandlerSpec.invokeSink (Err.code 404))

def w3req : Req := ⟨str "/abc", str "/abc", str "/abc", str "GET", [], none⟩

/-- Witness for C3: one non-matching registered entry, request `/abc`. -/
theorem no_match_sink_404_witness :
    ∃ req1, (handler 1 w3app w3req res0).2.1 =
      [Event.invoked w3app.middleware.length, Event.sink (Err.code 404) req1 res0] :=
  no_match_sink_404 0 w3app w3req res0 rfl (by rfl) (by decide) rfl

/-- **C4.** Once the response's finished flag (`writableEnded`) is true, no
subsequent entry's handler is ever invoked for that request: the dispatch
loop checks the flag before every step and returns immediately when it is
set (first conjunct); and if a matched entry's handler finishes the
response and then calls the continuation, the trace contains only that
entry's invocation, regardless of how many entries remain or of the
pending continuation being called afterwards (second conjunct). -/
theorem finished_no_more_handlers (idx : Nat) (l : List Middleware) (req : Req)
    (res : Res) (m : Middleware) (rest : List Middleware) (e : Option Err) :
    (res.writableEnded = true → loop idx l req res = ([], req, res)) ∧
    (res.writableEnded = false → entryMatches m req.url req.method = true →
      m.handler = HandlerSpec.callNext true e →
      (loop idx (m :: rest) req res).1 = [Event.invoked idx]) := by
  refine ⟨fun hw => loop_of_writableEnded hw idx l req, fun hw hm hh => ?_⟩
  rcases handle_invoke_of_matches m req res hm with ⟨req1, res1, heq, _, _, _, hwe⟩
  have ha : applyHandler m.handler req1 res1 =
      StepResult.continued req1 { res1 with writableEnded := true } := by
    rw [hh]; cases e <;> simp [applyHandler, nextWithReqAndRes]
  have h2 : loop (idx + 1) rest req1 { res1 with writableEnded := true } =
      ([], req1, { res1 with writableEnded := true }) :=
    loop_of_writableEnded rfl _ _ _
  simp [loop, hw, heq, ha, h2]

def w4m : Middleware := ⟨str "/", none, MwType.mw, HandlerSpec.callNext true none⟩

def w4req : Req := ⟨str "/a", str "/a", str "/a", str "GET", [], none⟩

def resT : Res := ⟨true, 200⟩

/-- Witness for C4: an already-finished response stops the walk, and a
finish-then-next handler is the last invocation. -/
theorem finished_no_more_handlers_witness :
    loop 0 [w4m] w4req resT = ([], w4req, resT) ∧
    (loop 0 [w4m] w4req res0).1 = [Event.invoked 0] :=
  ⟨(finished_no_more_handlers 0 [w4m] w4req resT w4m [] none).1 rfl,
   (finished_no_more_handlers 0 [w4m] w4req res0 w4m [] none).2 rfl (by decide) rfl⟩

/-- **C5.** When a matched entry's handler invokes the continuation with a
non-null error: if the response is not finished at that point, the Error
Sink is invoked exactly once with `(error, request, response)` and the
walk never resumes — the dispatch ends right after that single sink call
(first conjunct); if the handler had already finished the response, the
error is silently discarded: no sink call and no further handler (second
conjunct). -/
theorem continuation_error_terminal (idx : Nat) (m : Middleware)
    (rest : List Middleware) (req : Req) (res : Res) (e : Err)
    (hw : res.writableEnded = false)
    (hm : entryMatches m req.url req.method = true) :
    (m.handler = HandlerSpec.callNext false (some e) →
      ∃ req1 res1, loop idx (m :: rest) req res =
        ([Event.invoked idx, Event.sink e req1 res1], req1, res1) ∧
        res1.writableEnded = false) ∧
    (m.handler = HandlerSpec.callNext true (some e) →
      ∃ st, loop idx (m :: rest) req res = ([Event.invoked idx], st)) := by
  constructor
  · intro hh
    rcases handle_invoke_of_matches m req res hm with ⟨req1, res1, heq, _, _, _, hwe⟩
    rw [hw] at hwe
    have ha : applyHandler m.handler req1 res1 =
        StepResult.halted [Event.sink e req1 res1] req1 res1 := by
      rw [hh]; simp [applyHandler, nextWithReqAndRes, hwe]
    exact ⟨req1, res1, by simp [loop, hw, heq, ha], hwe⟩
  · intro hh
    rcases handle_invoke_of_matches m req res hm with ⟨req1, res1, heq, _, _, _, hwe⟩
    have ha : applyHandler m.handler req1 res1 =
        StepResult.continued req1 { res1 with writableEnded := true } := by
      rw [hh]; simp [applyHandler, nextWithReqAndRes]
    have h2 : loop (idx + 1) rest req1 { res1 with writableEnded := true } =
        ([], req1, { res1 with writableEnded := true }) :=
      loop_of_writableEnded rfl _ _ _
    exact ⟨(req1, { res1 with writableEnded := true }),
      by simp [loop, hw, heq, ha, h2]⟩

def w5m1 : Middleware :=
  ⟨str "/", none, MwType.mw, HandlerSpec.callNext false (some (Err.val 5))⟩

def w5m2 : Middleware :=
  ⟨str "/", none, MwType.mw, HandlerSpec.callNext true (some (Err.val 5))⟩

/-- Witness for C5: `next(err)` with an open response reaches the sink
once; after finishing the response the error is discarded. -/
theorem continuation_error_terminal_witness :
    (∃ req1 res1, loop 0 [w5m1] w4req res0 =
      ([Event.invoked 0, Event.sink (Err.val 5) req1 res1], req1, res1) ∧
      res1.writableEnded = false) ∧
    (∃ st, loop 0 [w5m2] w4req res0 = ([Event.invoked 0], st)) :=
  ⟨(continuation_error_terminal 0 w5m1 [] w4req res0 (Err.val 5) rfl (by decide)).1 rfl,
   (continuation_error_terminal 0 w5m2 [] w4req res0 (Err.val 5) rfl (by decide)).2 rfl⟩

/-- **C6.** An asynchronous handler that throws during its execution is
caught by `applyHandler`'s `try/catch` and the thrown value is delivered
to the continuation as the error: with the response open, the dispatch
ends in exactly one Error Sink invocation carrying that thrown value
(first conjunct), and for a middleware entry the whole dispatch outcome is
literally identical to the same entry with a synchronous handler calling
`continuation(err)` (second conjunct; for a route entry the two outcomes
differ only in the `route` introspection field recorded inside the sink
event, which in the source likewise records the differing handler). -/
theorem async_throw_one_sink (idx : Nat) (m : Middleware) (rest : List Middleware)
    (req : Req) (res : Res) (e : Err)
    (hw : res.writableEnded = false)
    (hm : entryMatches m req.url req.method = true)
    (hh : m.handler = HandlerSpec.throwAsync e) :
    (∃ req1 res1, loop idx (m :: rest) req res =
      ([Event.invoked idx, Event.sink e req1 res1], req1, res1)) ∧
    (m.type = MwType.mw →
      loop idx (m :: rest) req res =
        loop idx ({ m with handler := HandlerSpec.callNext false (some e) } :: rest)
          req res) := by
  constructor
  · rcases handle_invoke_of_matches m req res hm with ⟨req1, res1, heq, _, _, _, hwe⟩
    rw [hw] at hwe
    have ha : applyHandler m.handler req1 res1 =
        StepResult.halted [Event.sink e req1 res1] req1 res1 := by
      rw [hh]; simp [applyHandler, nextWithReqAndRes, hwe]
    exact ⟨req1, res1, by simp [loop, hw, heq, ha]⟩
  · intro ht
    have hhandle : handle { m with handler := HandlerSpec.callNext false (some e) }
        req res = handle m req res := by
      by_cases hml : matchLoose m.path (pathnameOf req.url) = true
      · rw [handle_invoke_of_matches_mw m req res ht hml,
            handle_invoke_of_matches_mw
              { m with handler := HandlerSpec.callNext false (some e) }
              req res ht hml]
        rw [hh]
        simp [applyHandler, nextWithReqAndRes]
      · have h1 : entryMatches m req.url req.method = false := by
          simp [entryMatches, ht]
          simpa using hml
        have h2 : entryMatches { m with handler := HandlerSpec.callNext false (some e) }
            req.url req.method = false := by
          simp [entryMatches, ht]
          simpa using hml
        rw [handle_skip_of_not_matches m req res h1,
            handle_skip_of_not_matches { m with handler := HandlerSpec.callNext false (some e) }
              req res h2]
    simp [loop, hhandle]

def w6m : Middleware := ⟨str "/", none, MwType.mw, HandlerSpec.throwAsync (Err.val 9)⟩

/-- Witness for C6. -/
theorem async_throw_one_sink_witness :
    (∃ req1 res1, loop 0 [w6m] w4req res0 =
      ([Event.invoked 0, Event.sink (Err.val 9) req1 res1], req1, res1)) ∧
    (loop 0 [w6m] w4req res0 =
      loop 0 [{ w6m with handler := HandlerSpec.callNext false (some (Err.val 9)) }]
        w4req res0) :=
  ⟨(async_throw_one_sink 0 w6m [] w4req res0 (Err.val 9) rfl (by decide) rfl).1,
   (async_throw_one_sink 0 w6m [] w4req res0 (Err.val 9) rfl (by decide) rfl).2 rfl⟩

def c7m : Middleware := ⟨str "/", none, MwType.mw, HandlerSpec.throwSync (Err.val 7)⟩

def c7req : Req := ⟨str "/x", str "/x", str "/x", str "GET", [], none⟩

/-- **C7 counterexample.** The claim requires every synchronous handler's
throw to be redirected by the invocation wrapper to the continuation's
error path, reaching the Error Sink.  `applyHandler` (lines 19-27) wraps
the call in `try/catch` only when the handler is an `AsyncFunction`; a
synchronous handler is called bare, so its throw only rejects the async
wrapper's promise — which `handle` awaits and `loop` discards.  For a
matched synchronous handler throwing the value 7, the dispatch trace is
the invocation followed by the uncaught escape, and no Error Sink call
with that value (or any other) occurs. -/
theorem sync_throw_counterexample :
    (loop 0 [c7m] c7req res0).1 = [Event.invoked 0, Event.escaped (Err.val 7)] ∧
    ∀ req1 res1, Event.sink (Err.val 7) req1 res1 ∉ (loop 0 [c7m] c7req res0).1 := by
  constructor
  · decide
  · intro req1 res1 hmem
    have h : (loop 0 [c7m] c7req res0).1 =
        [Event.invoked 0, Event.escaped (Err.val 7)] := by decide
    rw [h] at hmem
    simp at hmem

/-- **C7 (amended).** A synchronous handler's throw is *not* delivered to
the continuation: only handlers tagged `AsyncFunction` are wrapped in
`try/catch` (lines 20-25), a synchronous handler is called bare on line
26, so the thrown value escapes the dispatch uncaught (as the rejected,
discarded promise of the async `applyHandler` wrapper) and the Error Sink
is never invoked for it — the dispatch of a matched synchronous throwing
handler ends with the invocation followed by the escape. -/
theorem sync_throw_escapes (idx : Nat) (m : Middleware) (rest : List Middleware)
    (req : Req) (res : Res) (e : Err)
    (hw : res.writableEnded = false)
    (hm : entryMatches m req.url req.method = true)
    (hh : m.handler = HandlerSpec.throwSync e) :
    ∃ req1 res1, loop idx (m :: rest) req res =
      ([Event.invoked idx, Event.escaped e], req1, res1) := by
  rcases handle_invoke_of_matches m req res hm with ⟨req1, res1, heq, _, _, _, _⟩
  have ha : applyHandler m.handler req1 res1 =
      StepResult.halted [Event.escaped e] req1 res1 := by
    rw [hh]; simp [applyHandler]
  exact ⟨req1, res1, by simp [loop, hw, heq, ha]⟩

/-- Witness for C7 (amended). -/
theorem sync_throw_escapes_witness :
    ∃ req1 res1, loop 0 [c7m] c7req res0 =
      ([Event.invoked 0, Event.escaped (Err.val 7)], req1, res1) :=
  sync_throw_escapes 0 c7m [] c7req res0 (Err.val 7) rfl (by decide) rfl

/-- **C8.** Restoring `request.url` after a non-matching entry is
lossless: after any number of consecutive non-matching entry attempts
(each strips the entry's pattern prefix from `url` and, on mismatch,
restores it from the per-attempt `originalUrl` snapshot), the walk emits
no events, leaves the response untouched, and the final `request.url`
equals its pre-dispatch value exactly — so later entries see the
untouched path. -/
theorem url_restore_lossless (idx : Nat) (l : List Middleware) (req : Req)
    (res : Res) (hw : res.writableEnded = false)
    (hm : ∀ m ∈ l, entryMatches m req.url req.method = false) :
    ∃ req1, loop idx l req res = ([], req1, res) ∧ req1.url = req.url := by
  rcases loop_append_skips l idx req res [] hw hm with ⟨req1, heq, hurl, _⟩
  rw [List.append_nil] at heq
  exact ⟨req1, by rw [heq]; rfl, hurl⟩

def w8l : List Middleware :=
  [⟨str "/x", none, MwType.mw, HandlerSpec.passive⟩,
   ⟨str "/y", some (str "GET"), MwType.route, HandlerSpec.finishOnly⟩,
   ⟨str "/a/b", none, MwType.mw, HandlerSpec.passive⟩]

/-- Witness for C8: three consecutive non-matching entries leave
`request.url` exactly as it arrived. -/
theorem url_restore_lossless_witness :
    ∃ req1, loop 0 w8l w4req res0 = ([], req1, res0) ∧ req1.url = w4req.url :=
  url_restore_lossless 0 w8l w4req res0 rfl (by decide)

def c9route : Middleware :=
  ⟨str "/api/users", some (str "GET"), MwType.route, HandlerSpec.finishOnly⟩

def c9l : List Middleware :=
  [⟨str "/api", none, MwType.mw, HandlerSpec.callNext false none⟩, c9route]

def c9req : Req :=
  ⟨str "/api/users", str "/api/users", str "/api/users", str "GET", [], none⟩

/-- **C9 counterexample.** The claim says the pathname used for matching
is always derived from the URL the request arrived with, so that earlier
prefix stripping does not affect which later entries match.  Here the
route `GET /api/users` is satisfied by the arrived request URL
`/api/users` (first conjunct), but the middleware mounted at `/api`
matches first, strips `url` to `/users`, and calls the continuation; the
next attempt re-snapshots `originalUrl` from the *stripped* `url`, so the
route is matched against `/users` and is never invoked — the trace ends
after the middleware invocation with no `Event.invoked 1` (second
conjunct). -/
theorem stripped_url_counterexample :
    entryMatches c9route c9req.url c9req.method = true ∧
    (loop 0 c9l c9req res0).1 = [Event.invoked 0] := by decide

/-- **C9 (amended).** The pathname used at each entry attempt is derived
from `req.originalUrl`, which is re-snapshotted from the *current*
`req.url` at the start of that attempt (line 215).  Entries that do not
match restore `url`, so their stripping is invisible to later entries;
but when a matched middleware's handler calls the continuation without
error, its stripping persists: the remainder of the walk starts from the
stripped `url = lead (url.drop pattern.length)`, with `originalUrl`
re-snapshotted to the pre-attempt value — so which later entries match is
evaluated against the stripped URL, not the arrival URL. -/
theorem matched_mw_strip_persists (idx : Nat) (m : Middleware)
    (rest : List Middleware) (req : Req) (res : Res)
    (hw : res.writableEnded = false)
    (ht : m.type = MwType.mw)
    (hml : matchLoose m.path (pathnameOf req.url) = true)
    (hh : m.handler = HandlerSpec.callNext false none) :
    ∃ req1, loop idx (m :: rest) req res =
        (Event.invoked idx :: (loop (idx + 1) rest req1 res).1,
         (loop (idx + 1) rest req1 res).2) ∧
      req1.url = lead (req.url.drop m.path.length) ∧
      req1.originalUrl = req.url := by
  have heq := handle_invoke_of_matches_mw m req res ht hml
  have ha : applyHandler m.handler
      { req with originalUrl := req.url,
                 url := lead (req.url.drop m.path.length),
                 path := pathnameOf (lead (req.url.drop m.path.length)) } res =
      StepResult.continued
        { req with originalUrl := req.url,
                   url := lead (req.url.drop m.path.length),
                   path := pathnameOf (lead (req.url.drop m.path.length)) } res := by
    rw [hh]; simp [applyHandler, nextWithReqAndRes]
  refine ⟨{ req with originalUrl := req.url,
                     url := lead (req.url.drop m.path.length),
                     path := pathnameOf (lead (req.url.drop m.path.length)) },
          ?_, rfl, rfl⟩
  simp [loop, hw, heq, ha]

def w9m : Middleware := ⟨str "/api", none, MwType.mw, HandlerSpec.callNext false none⟩

/-- Witness for C9 (amended): after the matched `/api` middleware resumes
the walk, the remainder starts from the stripped URL `/users`. -/
theorem matched_mw_strip_persists_witness :
    ∃ req1, loop 0 [w9m] c9req res0 =
        (Event.invoked 0 :: (loop 1 [] req1 res0).1, (loop 1 [] req1 res0).2) ∧
      req1.url = lead (c9req.url.drop w9m.path.length) ∧
      req1.originalUrl = c9req.url :=
  matched_mw_strip_persists 0 w9m [] c9req res0 rfl rfl (by decide) rfl
